import Mathlib

/-!
Verification development for the readux TEI annotation export
(`readux/books/annotate.py`).

The Python source is shallowly embedded below.  Python strings are
modelled as Lean `String` (or `List Char` where character-offset
arithmetic matters: Python indexes strings by code point, exactly the
`List Char` view).  The lxml element tree is modelled by the nested
inductive `TNode` (an element's direct text, its ordered children and
its lxml "tail" text).  Python exceptions are modelled by `Except`.
External collaborators (the lxml xpath engine, the markdown-to-TEI
converter) are passed in as function parameters.
-/

/-- Characters accepted by the ASCII fragment of `re.sub` pattern
`[^\w\s-]` used by `django.utils.text.slugify`: word characters,
whitespace and hyphen survive the first substitution. -/
def slugChar (c : Char) : Bool := c.isAlphanum || c = '_' || c.isWhitespace || c = '-'

/-- Characters matched by the pattern `[-\s]` in `slugify`. -/
def dashish (c : Char) : Bool := c.isWhitespace || c = '-'

/-- Python `str.strip()` (ASCII whitespace) on a character list. -/
def stripWsL (l : List Char) : List Char :=
  ((l.dropWhile Char.isWhitespace).reverse.dropWhile Char.isWhitespace).reverse

/-- Python `str.strip()` on a string. -/
def pyStrip (s : String) : String := ⟨stripWsL s.data⟩

/-- Collapse every run of characters matching `[-\s]+` into a single
hyphen, as the final `re.sub(r'[-\s]+', '-', value)` of `slugify` does. -/
def squashDashes : List Char → List Char
  | [] => []
  | [c] => if dashish c then ['-'] else [c]
  | c :: d :: rest =>
    if dashish c && dashish d then squashDashes (d :: rest)
    else if dashish c then '-' :: squashDashes (d :: rest)
    else c :: squashDashes (d :: rest)

/-- Modelled from `django.utils.text.slugify` restricted to ASCII input
(the NFKD/ascii-ignore step is the identity there): drop characters
matching `[^\w\s-]`, strip, lowercase, then collapse `[-\s]+` runs to
single hyphens.  `annotate.py` imports this collaborator for tag ids. -/
def slugify (value : String) : String :=
  ⟨squashDashes ((stripWsL (value.data.filter slugChar)).map Char.toLower)⟩

/-- Fuel-indexed worker for Python `str.replace`: replace every
non-overlapping occurrence of `pat` left to right.  Fuel bounds the
recursion; `fuel = length of the subject` is always enough because each
step consumes at least one character (`pat` is never empty at the call
sites in `annotate.py`). -/
def replaceGo (pat rep : List Char) : Nat → List Char → List Char
  | _, [] => []
  | 0, s => s
  | fuel+1, c :: rest =>
    if pat.isPrefixOf (c :: rest) then
      rep ++ replaceGo pat rep fuel ((c :: rest).drop pat.length)
    else c :: replaceGo pat rep fuel rest

/-- Python `str.replace(old, new)` (all occurrences, left to right,
non-overlapping), for non-empty `old`. -/
def pyReplace (s old new : String) : String :=
  ⟨replaceGo old.data new.data s.data.length s.data⟩

/-- Substring test (Python `in` on strings / SQL `LIKE %s%`), on
character lists. -/
def infixOf : List Char → List Char → Bool
  | pat, [] => pat.isEmpty
  | pat, c :: rest => pat.isPrefixOf (c :: rest) || infixOf pat rest

/-- Substring test on strings. -/
def strContains (hay needle : String) : Bool := infixOf needle.data hay.data

/-- One lxml element: its `xml:id` (used as node identity), its direct
`.text`, its ordered children, and its `.tail` (text that follows the
element inside its parent).  Anchors and regular TEI nodes share this
shape; an anchor is a node with empty text, children and tail. -/
inductive TNode where
  | node (id : String) (text : List Char) (children : List TNode) (tail : List Char)

/-- The element's identifier. -/
def TNode.id : TNode → String
  | .node i _ _ _ => i

/-- The element's direct text (`element.text` in lxml, `[]` for None). -/
def TNode.text : TNode → List Char
  | .node _ t _ _ => t

/-- The element's children. -/
def TNode.children : TNode → List TNode
  | .node _ _ cs _ => cs

/-- The element's tail text (`element.tail`, `[]` for None). -/
def TNode.tail : TNode → List Char
  | .node _ _ _ tl => tl

/-- Replace the element's tail (lxml `anchor.tail = ...`). -/
def TNode.setTail : TNode → List Char → TNode
  | .node i t cs _, tl => .node i t cs tl

mutual
/-- Document-order text reconstruction of one element including its
tail: direct text, then each child's reconstruction, then the tail.
This is how lxml serialises visible text. -/
def fullText : TNode → List Char
  | .node _ t cs tl => t ++ fullTextL cs ++ tl
/-- Document-order text of a sibling list. -/
def fullTextL : List TNode → List Char
  | [] => []
  | n :: ns => fullText n ++ fullTextL ns
end

mutual
/-- Pre-order (document-order) list of element identifiers. -/
def nodeIds : TNode → List String
  | .node i _ cs _ => i :: nodeIdsL cs
/-- Pre-order identifiers of a sibling list. -/
def nodeIdsL : List TNode → List String
  | [] => []
  | n :: ns => nodeIds n ++ nodeIdsL ns
end

/-- A target element together with its context inside its parent:
siblings before it and siblings after it.  `insert_anchor` mutates
exactly this neighbourhood (lxml `addprevious`, `addnext`,
`insert(0, ...)` all stay inside it). -/
structure Ctx where
  before : List TNode
  elem : TNode
  after : List TNode

/-- Document-order text of the context's neighbourhood. -/
def ctxText (c : Ctx) : List Char :=
  fullTextL c.before ++ fullText c.elem ++ fullTextL c.after

/-- Document-order identifiers of the context's neighbourhood. -/
def ctxIds (c : Ctx) : List String :=
  nodeIdsL c.before ++ nodeIds c.elem ++ nodeIdsL c.after

/-- Embedding of `insert_anchor(element, anchor, offset)`
(annotate.py:264-289).  `offset == 0`: `element.addprevious(anchor)`;
`offset >= len(element.text)`: `element.addnext(anchor)`; otherwise the
anchor becomes the first child, the element keeps `text[:offset]` and
the anchor's tail receives `text[offset:]`. -/
def insert_anchor (c : Ctx) (anchor : TNode) (offset : Nat) : Ctx :=
  if offset = 0 then
    { c with before := c.before ++ [anchor] }
  else if c.elem.text.length ≤ offset then
    { c with after := anchor :: c.after }
  else
    let elem' : TNode := .node c.elem.id (c.elem.text.take offset)
      (anchor.setTail (c.elem.text.drop offset) :: c.elem.children) c.elem.tail
    { c with elem := elem' }

mutual
/-- Apply the `insert_anchor` mutation at the (first, document-order)
element whose id is `target` inside a sibling forest; `none` when the
target is absent.  This lifts `insert_anchor` from the element-plus-
parent view to the page subtree that `insert_note` holds; xpath results
in `annotate.py` are nodes of that subtree, identified here by id. -/
def insertAnchorSibs (target : String) (anchor : TNode) (offset : Nat) :
    List TNode → Option (List TNode)
  | [] => none
  | n :: rest =>
    if n.id = target then
      some (if offset = 0 then anchor :: n :: rest
            else if n.text.length ≤ offset then n :: anchor :: rest
            else .node n.id (n.text.take offset)
                   (anchor.setTail (n.text.drop offset) :: n.children) n.tail :: rest)
    else
      match insertAnchorNode target anchor offset n with
      | some n' => some (n' :: rest)
      | none =>
        match insertAnchorSibs target anchor offset rest with
        | some rest' => some (n :: rest')
        | none => none
/-- Descend into one element's children looking for the target. -/
def insertAnchorNode (target : String) (anchor : TNode) (offset : Nat) :
    TNode → Option TNode
  | .node i t cs tl =>
    match insertAnchorSibs target anchor offset cs with
    | some cs' => some (.node i t cs' tl)
    | none => none
end

/-- Total wrapper: xpath in `annotate.py` only ever returns nodes that
are in the tree, so the `none` branch is unreachable there; it returns
the content unchanged. -/
def insertAnchorAt (content : List TNode) (target : String) (anchor : TNode)
    (offset : Nat) : List TNode :=
  (insertAnchorSibs target anchor offset content).getD content

/-- Strict document-order precedence of identifier `x` before
identifier `y` in an identifier list. -/
def precedesIn (l : List String) (x y : String) : Prop :=
  ∃ i j : Fin l.length, (i : Nat) < j ∧ l.get i = x ∧ l.get j = y

instance (l : List String) (x y : String) : Decidable (precedesIn l x y) := by
  unfold precedesIn; infer_instance

/-- One entry of an annotation's selection descriptor
(`info['ranges'][i]`): start/end xpaths in the authoring (HTML)
addressing scheme plus character offsets.  The dictionary key `end` is
rendered as `endp` (`end` is reserved in Lean). -/
structure SelRange where
  start : String
  endp : String
  startOffset : Nat
  endOffset : Nat

/-- The image-region descriptor (`info['image_selection']`): the four
percentage values.  The source stores them as strings such as `"12.5%"`
and computes `float(v.rstrip('%'))`; the model carries the parsed
numeric value (exact rationals in place of Python floats). -/
structure ImgSel where
  x : ℚ
  y : ℚ
  w : ℚ
  h : ℚ

/-- The parsed `extra_data` JSON of one annotation, which is also what
`annotation.info()` returns in the source.  Absent keys are `none`. -/
structure ExtraData where
  ark : Option String
  ranges : Option (List SelRange)
  image_selection : Option ImgSel
  tags : Option (List String)
  related_pages : Option (List String)

/-- An annotation author (Django user): stable handle and display name. -/
structure User where
  username : String
  full_name : String

/-- One annotation record as consumed by `annotate.py`. -/
structure AnnotationRec where
  id : String
  user : Option User
  text : String
  uri : String
  info : ExtraData

/-- Serialisation of one selection range inside the stored
`extra_data` text (JSON-like; numeric offsets elided — no claim
depends on substring matches against numbers). -/
def serializeRange (r : SelRange) : String :=
  "\"start\": \"" ++ r.start ++ "\", \"end\": \"" ++ r.endp ++ "\""

/-- The stored `extra_data` text of an annotation, as the database
`LIKE`-based filter `extra_data__contains` sees it.  Modelled as a
deterministic JSON-like dump of the present keys (outer braces and
numeric values elided; every string value appears verbatim, which is
what the containment checks in `annotate.py` rely on). -/
def serializeExtra (e : ExtraData) : String :=
  (match e.ark with
   | some v => "\"ark\": \"" ++ v ++ "\", "
   | none => "")
  ++ (match e.ranges with
      | some rs => "\"ranges\": [" ++ String.intercalate ", " (rs.map serializeRange) ++ "], "
      | none => "")
  ++ (match e.image_selection with
      | some _ => "\"image_selection\": ..., "
      | none => "")
  ++ (match e.tags with
      | some ts =>
        "\"tags\": [" ++ String.intercalate ", " (ts.map (fun t => "\"" ++ t ++ "\"")) ++ "], "
      | none => "")
  ++ (match e.related_pages with
      | some ps =>
        "\"related_pages\": [" ++ String.intercalate ", " (ps.map (fun p => "\"" ++ p ++ "\"")) ++ "]"
      | none => "")

/-- The queryset filter `Q(extra_data__contains=s)`: substring test
against the stored `extra_data` text. -/
def extraContains (a : AnnotationRec) (s : String) : Bool :=
  strContains (serializeExtra a.info) s

/-- Python `note.extra_data.get('ark', '')`. -/
def arkOf (a : AnnotationRec) : String := a.info.ark.getD ""

/-- One `interp` entry of the back-matter `interpGrp` tag vocabulary:
`xml:id` (slugified) and display value. -/
structure Interp where
  id : String
  value : String

/-- One related-page `ref` inside a note. -/
structure Ref where
  text : String
  type : String
  target : Option String

/-- A TEI note generated from one annotation (`tei.Note`). -/
structure Note where
  id : String
  href : String
  type : String
  body : String
  ana : Option String
  resp : Option String
  markdown : String
  related_pages : List Ref
  target : Option String

/-- An image-annotation highlight zone appended to a page
(`tei.Zone(type="image-annotation-highlight")`). -/
structure HZone where
  type : String
  ulx : ℚ
  uly : ℚ
  lrx : ℚ
  lry : ℚ
  id : String

/-- One facsimile page (`tei.Zone` of the page list): external key
`href`, geometric bounds, the content subtree (structural nodes that
xpath lookups address) and the appended image-highlight zones (children
of the page node in the source; kept in a separate list here because
anchors never target them). -/
structure PageZ where
  id : String
  href : String
  ulx : ℚ
  uly : ℚ
  lrx : ℚ
  lry : ℚ
  content : List TNode
  highlights : List HZone

/-- One `name` entry of the responsibility statement. -/
structure NameEntry where
  id : String
  value : String

/-- The TEI facsimile document state that `annotate.py` mutates
(`tei.AnnotatedFacsimile`). -/
structure TeiVol where
  title : Option String
  mainTitle : Option String
  subtitle : Option String
  responsibility : Option String
  respNames : List NameEntry
  pubDesc : String
  pubDate : String
  pages : List PageZ
  annotations : List Note
  tagsBlock : Option (List Interp)

/-- Python exceptions that can escape the embedded code: a failure of
the markdown-to-TEI conversion collaborator, and the `NameError` raised
at `teinote.target = target` when no branch bound `target`. -/
inductive PyErr where
  | conversion
  | nameError
deriving DecidableEq, Repr

/-- Embedding of `html_xpath_to_tei` (annotate.py:166-174): three
ordered textual substitutions. -/
def html_xpath_to_tei (xpath : String) : String :=
  pyReplace (pyReplace (pyReplace xpath "div" "tei:zone")
      "span" "node()[local-name()=\"line\" or local-name()=\"w\"]")
    "@id" "@xml:id"

/-- The effective start xpath of a selection:
`html_xpath_to_tei(selection_range['start']) or '//tei:zone[1]'`
(Python `or` substitutes the default exactly when the translated path
is empty/falsy). -/
def startXpathOf (r : SelRange) : String :=
  let s := html_xpath_to_tei r.start
  if s = "" then "//tei:zone[1]" else s

/-- The effective end xpath of a selection, defaulting to
`'//tei:zone[last()]'`. -/
def endXpathOf (r : SelRange) : String :=
  let s := html_xpath_to_tei r.endp
  if s = "" then "//tei:zone[last()]" else s

/-- Identifier of the start anchor (`'highlight-start-%s' % annotation.id`). -/
def startAnchorId (aid : String) : String := "highlight-start-" ++ aid

/-- Identifier of the end anchor (`'highlight-end-%s' % annotation.id`). -/
def endAnchorId (aid : String) : String := "highlight-end-" ++ aid

/-- The start anchor node (zero-width: no text, children or tail).  The
`type` and `next` attributes of `tei.Anchor` carry no claim content and
are elided. -/
def mkStartAnchor (aid : String) : TNode := .node (startAnchorId aid) [] [] []

/-- The end anchor node (zero-width). -/
def mkEndAnchor (aid : String) : TNode := .node (endAnchorId aid) [] [] []

/-- Embedding of the image branch of `insert_note`
(annotate.py:227-254): percentages divided by 100 and multiplied by the
page width/height; no clamping and no page-origin offset appear in the
source. -/
def image_highlight_zone (teipage : PageZ) (sel : ImgSel) (aid : String) : HZone :=
  let page_width := teipage.lrx - teipage.ulx
  let page_height := teipage.lry - teipage.uly
  let sx := sel.x / 100
  let sy := sel.y / 100
  let sw := sel.w / 100
  let sh := sel.h / 100
  let ulx := sx * page_width
  let uly := sy * page_height
  { type := "image-annotation-highlight", ulx := ulx, uly := uly,
    lrx := ulx + sw * page_width, lry := uly + sh * page_height,
    id := "highlight-" ++ aid }

/-- Insert keeping set semantics: Python `set` membership modelled as a
duplicate-free list in first-insertion order (Python's set iteration
order is unspecified; every property proved below is order-independent). -/
def setInsert (l : List String) (s : String) : List String :=
  if s ∈ l then l else l ++ [s]

/-- Dedup a list keeping first occurrences (`set(...)` of a generator). -/
def dedupL (l : List String) : List String := l.foldl setInsert []

/-- Modelled from `absolutize_url(annotation.get_absolute_url())`
(external Django collaborators): the canonical absolute URI of the
annotation.  Only its presence matters to the claims. -/
def annotationUrl (aid : String) : String := "http://readux/annotations/" ++ aid ++ "/"

/-- Modelled from `tei.AnnotatedFacsimile.page_id_by_xlink` (class
`readux.books.tei`, not under src/): find the TEI page identifier whose
external (xlink) reference equals the given url. -/
def page_id_by_xlink (teivol : TeiVol) (href : String) : Option String :=
  (teivol.pages.find? (fun p => p.href == href)).map (fun p => p.id)

/-- Embedding of `annotation_to_tei(annotation, teivol)`
(annotate.py:109-164).  `conv` is the markdown-to-TEI collaborator
`markdown_tei.convert`; `none` models it raising.  The result note has
no target yet (`teinote.target` is assigned later by `insert_note`). -/
def annotation_to_tei (conv : String → Option String) (anno : AnnotationRec)
    (teivol : TeiVol) : Except PyErr Note :=
  match conv anno.text with
  | none => .error .conversion
  | some note_content =>
    let ana := match anno.info.tags with
      | some ts =>
        if ts.isEmpty then none
        else some (String.intercalate " "
          (dedupL (ts.map (fun t => "#" ++ slugify (pyStrip t)))))
      | none => none
    let related := match anno.info.related_pages with
      | some ps =>
        ps.map (fun rel_page =>
          { text := rel_page, type := "related page",
            target := (page_id_by_xlink teivol rel_page).map (fun t => "#" ++ t) : Ref })
      | none => []
    .ok { id := "annotation-" ++ anno.id,
          href := annotationUrl anno.id,
          type := "annotation",
          body := note_content,
          ana := ana,
          resp := anno.user.map (fun u => u.username),
          markdown := anno.text,
          related_pages := related,
          target := none }

/-- Result of `insert_note`: the updated document and page, and whether
the "could not find start or end xpath" warning was logged. -/
structure InsertResult where
  vol : TeiVol
  page : PageZ
  warned : Bool

/-- The shared tail of `insert_note` (annotate.py:256-261): build the
note, set its target, append it to the document's annotation div. -/
def appendNote (conv : String → Option String) (teivol : TeiVol) (page' : PageZ)
    (anno : AnnotationRec) (target : String) : Except PyErr InsertResult :=
  match annotation_to_tei conv anno teivol with
  | .error e => .error e
  | .ok teinote =>
    .ok ⟨{ teivol with
           annotations := teivol.annotations ++ [{ teinote with target := some target }] },
         page', false⟩

/-- Embedding of `insert_note(teivol, teipage, annotation)`
(annotate.py:177-261).  `xp` is the lxml xpath engine: given the page's
content subtree and an xpath it returns the matched nodes (by id, in
document order).  In the no-descriptor fall-through the source still
calls `annotation_to_tei` (line 258) and then raises `NameError` at
`teinote.target = target` because no branch bound `target`. -/
def insert_note (xp : List TNode → String → List String) (conv : String → Option String)
    (teivol : TeiVol) (teipage : PageZ) (anno : AnnotationRec) : Except PyErr InsertResult :=
  match anno.info.ranges with
  | some (selection_range :: _) =>
    let start_xpath := startXpathOf selection_range
    let end_xpath := endXpathOf selection_range
    let startN := xp teipage.content start_xpath
    let endN := xp teipage.content end_xpath
    match startN, endN with
    | [], _ => .ok ⟨teivol, teipage, true⟩
    | _ :: _, [] => .ok ⟨teivol, teipage, true⟩
    | s0 :: _, e0 :: _ =>
      let content1 := insertAnchorAt teipage.content e0 (mkEndAnchor anno.id)
        selection_range.endOffset
      let content2 := insertAnchorAt content1 s0 (mkStartAnchor anno.id)
        selection_range.startOffset
      let target := "#range(#" ++ startAnchorId anno.id ++ ", #" ++ endAnchorId anno.id ++ ")"
      appendNote conv teivol { teipage with content := content2 } anno target
  | _ =>
    match anno.info.image_selection with
    | some sel =>
      let image_highlight := image_highlight_zone teipage sel anno.id
      let target := "#" ++ image_highlight.id
      appendNote conv teivol
        { teipage with highlights := teipage.highlights ++ [image_highlight] } anno target
    | none =>
      match annotation_to_tei conv anno teivol with
      | .error e => .error e
      | .ok _ => .error .nameError

/-- The per-page annotation loop of `annotated_tei` (annotate.py:85-94):
skip candidates whose `ark` does not equal the page key, insert the
note, then merge the (stripped) tags into the running tag set. -/
def processAnns (xp : List TNode → String → List String) (conv : String → Option String) :
    TeiVol → PageZ → List String → List AnnotationRec →
    Except PyErr (TeiVol × PageZ × List String)
  | teivol, page, tags, [] => .ok (teivol, page, tags)
  | teivol, page, tags, note :: rest =>
    if arkOf note ≠ page.href then processAnns xp conv teivol page tags rest
    else
      match insert_note xp conv teivol page note with
      | .error e => .error e
      | .ok r =>
        let tags' := match note.info.tags with
          | some ts => ts.foldl (fun acc t => setInsert acc (pyStrip t)) tags
          | none => tags
        processAnns xp conv r.vol r.page tags' rest

/-- Processing of one page of the page loop (annotate.py:75-94): pages
with no external key are skipped; candidates are selected by
`Q(uri=page.href) | Q(extra_data__contains=page.href)`; the queryset
`exists()` guard, then the annotation loop. -/
def processPage (xp : List TNode → String → List String) (conv : String → Option String)
    (anns : List AnnotationRec) (teivol : TeiVol) (page : PageZ) (tags : List String) :
    Except PyErr (TeiVol × PageZ × List String) :=
  if page.href = "" then .ok (teivol, page, tags)
  else
    let page_annotations := anns.filter (fun a => a.uri == page.href || extraContains a page.href)
    if page_annotations.isEmpty then .ok (teivol, page, tags)
    else processAnns xp conv teivol page tags page_annotations

/-- The page loop over the whole document, threading the document
state, the rebuilt page list and the tag set. -/
def annotatePages (xp : List TNode → String → List String) (conv : String → Option String)
    (anns : List AnnotationRec) :
    TeiVol → List String → List PageZ → Except PyErr (TeiVol × List PageZ × List String)
  | teivol, tags, [] => .ok (teivol, [], tags)
  | teivol, tags, page :: rest =>
    match processPage xp conv anns teivol page tags with
    | .error e => .error e
    | .ok (v1, page', tags1) =>
      match annotatePages xp conv anns v1 tags1 rest with
      | .error e => .error e
      | .ok (v2, pages', tags2) => .ok (v2, page' :: pages', tags2)

/-- The distinct authors of the input annotation collection
(the `only('user')...distinct()` queryset, first-seen order; the
database ordering is not claim-relevant). -/
def distinctUsers (anns : List AnnotationRec) : List User :=
  (anns.filterMap (fun a => a.user)).foldl
    (fun acc u => if acc.any (fun v => v.username == u.username) then acc else acc ++ [u]) []

/-- Modelled stand-in for `readux.__version__` (external). -/
def readuxVersion : String := "1.0"

/-- The header rewrite of `annotated_tei` (annotate.py:50-73): title
moved to main title, fixed subtitle and responsibility, one responsible
name per distinct annotation author, refreshed publication statement. -/
def headerRewrite (export_date : String) (teivol : TeiVol) (anns : List AnnotationRec) :
    TeiVol :=
  { teivol with
    mainTitle := teivol.title,
    subtitle := some ", an annotated digital edition",
    title := none,
    responsibility := some "annotated by",
    respNames := teivol.respNames ++
      (distinctUsers anns).map (fun u => { id := u.username, value := u.full_name }),
    pubDesc := "Annotated TEI generated by Readux version " ++ readuxVersion,
    pubDate := export_date }

/-- Embedding of `annotated_tei(teivol, annotations)`
(annotate.py:20-106): header rewrite, publication statement update,
page loop, and final `interpGrp` tag vocabulary (one `interp` per
element of the collected tag set, id slugified, value the display
label).  `export_date` stands for `datetime.now()`. -/
def annotated_tei (xp : List TNode → String → List String) (conv : String → Option String)
    (export_date : String) (teivol : TeiVol) (anns : List AnnotationRec) :
    Except PyErr TeiVol :=
  let tv : TeiVol := headerRewrite export_date teivol anns
  match annotatePages xp conv anns tv [] tv.pages with
  | .error e => .error e
  | .ok (v1, pages', tags) =>
    let v2 := { v1 with pages := pages' }
    if tags.isEmpty then .ok v2
    else .ok { v2 with tagsBlock := some (tags.map (fun tag => { id := slugify tag, value := tag : Interp })) }

/-- The clamp to `[0,1]` that the specification's RegionMapper formulas
use (`clamp(v/100, 0, 1)`); stated here to compare against the source. -/
def clamp01 (q : ℚ) : ℚ := max 0 (min 1 q)

/-- The annotations that one page actually places (derived from the
source): candidates of the queryset filter whose `ark` extra-data key
equals the page key. -/
def placedOnPage (anns : List AnnotationRec) (href : String) : List AnnotationRec :=
  anns.filter (fun a => (a.uri == href || extraContains a href) && arkOf a == href)

/-- An annotation carries a usable target descriptor: a non-empty
`ranges` list or an `image_selection`. -/
def hasDescriptor (a : AnnotationRec) : Bool :=
  (match a.info.ranges with
   | some (_ :: _) => true
   | _ => false) || a.info.image_selection.isSome

/-- No two vocabulary entries share a display value. -/
def nodupValues : List Interp → Bool
  | [] => true
  | e :: es => !(es.any (fun f => f.value == e.value)) && nodupValues es

/-- Well-formedness of the emitted tag vocabulary of a run: if the run
produced a document with a tag block, its entries have pairwise
distinct display values and each id is the slug of its value.
(Vacuously true for aborted runs and absent blocks.) -/
def tagsBlockOk : Except PyErr TeiVol → Bool
  | .error _ => true
  | .ok d =>
    match d.tagsBlock with
    | none => true
    | some es => nodupValues es && es.all (fun e => e.id == slugify e.value)

/-- The run produced a document whose tag vocabulary has an entry for
display label `t` (id slugified from it). -/
def resultTagEntry (r : Except PyErr TeiVol) (t : String) : Bool :=
  match r with
  | .error _ => false
  | .ok d =>
    match d.tagsBlock with
    | none => false
    | some es => es.any (fun e => e.id == slugify t && e.value == t)

/-- Number of notes in the produced document's annotation div. -/
def notesCount : Except PyErr TeiVol → Option Nat
  | .ok d => some d.annotations.length
  | .error _ => none

/-- Number of entries of the produced tag vocabulary. -/
def tagEntryCount : Except PyErr TeiVol → Option Nat
  | .ok d => some (d.tagsBlock.getD []).length
  | .error _ => none

/-- The exception a run aborted with, if any. -/
def errorOf : Except PyErr TeiVol → Option PyErr
  | .ok _ => none
  | .error e => some e

/-- An xpath engine that never matches (used to exercise lookup
failure). -/
def xpNone : List TNode → String → List String := fun _ _ => []

/-- A markdown converter that always succeeds (identity fragment). -/
def convOk : String → Option String := fun s => some s

/-- A markdown converter that always raises. -/
def convFail : String → Option String := fun _ => none

/-- A fixed export timestamp for concrete runs. -/
def now0 : String := "2016-01-01"

/-- A concrete page used by concrete runs: key `p1`, bounds
`(0,0)-(100,200)`, empty content. -/
def pageA : PageZ :=
  { id := "page1", href := "p1", ulx := 0, uly := 0, lrx := 100, lry := 200,
    content := [], highlights := [] }

/-- A concrete one-page document. -/
def volA : TeiVol :=
  { title := some "T", mainTitle := none, subtitle := none, responsibility := none,
    respNames := [], pubDesc := "", pubDate := "", pages := [pageA],
    annotations := [], tagsBlock := none }

/-- A concrete image annotation on `p1` carrying the tags `History` and
`history`. -/
def annA : AnnotationRec :=
  { id := "a1", user := none, text := "note text", uri := "p1",
    info := { ark := some "p1", ranges := none,
              image_selection := some { x := 10, y := 10, w := 10, h := 10 },
              tags := some ["History", "history"], related_pages := none } }

/-- A concrete page with key `page-7`. -/
def pageB : PageZ :=
  { id := "page7", href := "page-7", ulx := 0, uly := 0, lrx := 100, lry := 200,
    content := [], highlights := [] }

/-- A concrete one-page document with page key `page-7`. -/
def volB : TeiVol :=
  { title := some "T", mainTitle := none, subtitle := none, responsibility := none,
    respNames := [], pubDesc := "", pubDate := "", pages := [pageB],
    annotations := [], tagsBlock := none }

/-- An annotation whose stored reference (uri) equals `page-7` directly
and whose extra data has no `ark` key and no descriptors. -/
def annB : AnnotationRec :=
  { id := "b1", user := none, text := "direct match", uri := "page-7",
    info := { ark := none, ranges := none, image_selection := none,
              tags := none, related_pages := none } }

/-- A selection range with empty start and end paths (defaults apply). -/
def rangeEmpty : SelRange := { start := "", endp := "", startOffset := 0, endOffset := 0 }

/-- A text annotation on `p1` whose selection lookup will fail under
`xpNone`, carrying tag `"foo "` (note the trailing blank). -/
def annC : AnnotationRec :=
  { id := "c1", user := none, text := "skipped", uri := "p1",
    info := { ark := some "p1", ranges := some [rangeEmpty],
              image_selection := none,
              tags := some ["foo "], related_pages := none } }

/-- Like `annB` (direct uri match on `page-7`, no `ark` key) but with an
image-region descriptor, so that being placed would observably append a
note. -/
def annB2 : AnnotationRec :=
  { id := "b2", user := none, text := "direct match", uri := "page-7",
    info := { ark := none, ranges := none,
              image_selection := some { x := 10, y := 10, w := 10, h := 10 },
              tags := none, related_pages := none } }

/-- A page for the RegionMapper counterexample, with non-zero origin:
bounds `(10,0)-(20,10)`. -/
def pageC1 : PageZ :=
  { id := "pageC1", href := "pc1", ulx := 10, uly := 0, lrx := 20, lry := 10,
    content := [], highlights := [] }

/-- Image selection percentages for the RegionMapper counterexample. -/
def selC1 : ImgSel := { x := 0, y := 0, w := 50, h := 50 }

theorem fullTextL_append (l₁ l₂ : List TNode) :
    fullTextL (l₁ ++ l₂) = fullTextL l₁ ++ fullTextL l₂ := by
  induction l₁ with
  | nil => simp [fullTextL]
  | cons n ns ih => simp [fullTextL, ih]

theorem nodeIdsL_append (l₁ l₂ : List TNode) :
    nodeIdsL (l₁ ++ l₂) = nodeIdsL l₁ ++ nodeIdsL l₂ := by
  induction l₁ with
  | nil => simp [nodeIdsL]
  | cons n ns ih => simp [nodeIdsL, ih]

theorem fullText_setTail (a : TNode) (x : List Char) :
    fullText (a.setTail x) = a.text ++ fullTextL a.children ++ x := by
  cases a with
  | node i t cs tl => simp [TNode.setTail, TNode.text, TNode.children, fullText]

theorem nodeIds_setTail (a : TNode) (x : List Char) :
    nodeIds (a.setTail x) = nodeIds a := by
  cases a with
  | node i t cs tl => simp [TNode.setTail, nodeIds]

theorem TNode.id_setTail (a : TNode) (x : List Char) : (a.setTail x).id = a.id := by
  cases a with
  | node i t cs tl => simp [TNode.setTail, TNode.id]

theorem fullText_of_empty (a : TNode) (hta : a.text = []) (hca : a.children = [])
    (htl : a.tail = []) : fullText a = [] := by
  cases a with
  | node i t cs tl =>
    simp [TNode.text, TNode.children, TNode.tail] at hta hca htl
    simp [fullText, hta, hca, htl, fullTextL]

theorem nodeIds_of_empty_children (a : TNode) (hca : a.children = []) :
    nodeIds a = [a.id] := by
  cases a with
  | node i t cs tl =>
    simp [TNode.children] at hca
    simp [nodeIds, hca, nodeIdsL, TNode.id]

/-- The RegionMapper claim is false on the source at a page with
non-zero origin: the source computes `zone.ulx = (x/100) * pageWidth`
with no `page.ulx` offset (and no clamping), so at page bounds
`(10,0)-(20,10)` and `x = 0` the produced `ulx` is `0`, not
`page.ulx + clamp(x/100,0,1) * pageWidth = 10`. -/
theorem region_mapper_claim_counterexample :
    (image_highlight_zone pageC1 selC1 "z1").ulx ≠
      pageC1.ulx + clamp01 (selC1.x / 100) * (pageC1.lrx - pageC1.ulx) := by
  simp only [image_highlight_zone, clamp01, pageC1, selC1]
  norm_num

/-- C1 (amended): the highlight zone produced by the image branch of
`insert_note` satisfies `ulx = (x/100)*pageWidth`,
`uly = (y/100)*pageHeight`, `lrx = ulx + (w/100)*pageWidth`,
`lry = uly + (h/100)*pageHeight` — with no page-origin offset and no
clamping.  Consequently, for percentage inputs in `[0,100]` with
`x+w ≤ 100` and `y+h ≤ 100` and non-degenerate page bounds, the zone
lies within the page-sized rectangle `[0,pageWidth] × [0,pageHeight]`
and its width and height are non-negative. -/
theorem region_mapper_amended (p : PageZ) (sel : ImgSel) (aid : String)
    (hpw : p.ulx ≤ p.lrx) (hph : p.uly ≤ p.lry)
    (hx : 0 ≤ sel.x) (hy : 0 ≤ sel.y) (hw : 0 ≤ sel.w) (hh : 0 ≤ sel.h)
    (hxw : sel.x + sel.w ≤ 100) (hyh : sel.y + sel.h ≤ 100) :
    (image_highlight_zone p sel aid).ulx = sel.x / 100 * (p.lrx - p.ulx) ∧
    (image_highlight_zone p sel aid).uly = sel.y / 100 * (p.lry - p.uly) ∧
    (image_highlight_zone p sel aid).lrx =
      (image_highlight_zone p sel aid).ulx + sel.w / 100 * (p.lrx - p.ulx) ∧
    (image_highlight_zone p sel aid).lry =
      (image_highlight_zone p sel aid).uly + sel.h / 100 * (p.lry - p.uly) ∧
    0 ≤ (image_highlight_zone p sel aid).ulx ∧
    (image_highlight_zone p sel aid).ulx ≤ (image_highlight_zone p sel aid).lrx ∧
    (image_highlight_zone p sel aid).lrx ≤ p.lrx - p.ulx ∧
    0 ≤ (image_highlight_zone p sel aid).uly ∧
    (image_highlight_zone p sel aid).uly ≤ (image_highlight_zone p sel aid).lry ∧
    (image_highlight_zone p sel aid).lry ≤ p.lry - p.uly := by
  have hw' : (0:ℚ) ≤ p.lrx - p.ulx := by linarith
  have hh' : (0:ℚ) ≤ p.lry - p.uly := by linarith
  have hx1 : (0:ℚ) ≤ sel.x / 100 := by positivity
  have hy1 : (0:ℚ) ≤ sel.y / 100 := by positivity
  have hw1 : (0:ℚ) ≤ sel.w / 100 := by positivity
  have hh1 : (0:ℚ) ≤ sel.h / 100 := by positivity
  have hxw1 : sel.x / 100 + sel.w / 100 ≤ 1 := by linarith
  have hyh1 : sel.y / 100 + sel.h / 100 ≤ 1 := by linarith
  simp only [image_highlight_zone]
  refine ⟨trivial, trivial, trivial, trivial, mul_nonneg hx1 hw', ?_, ?_,
    mul_nonneg hy1 hh', ?_, ?_⟩
  · exact le_add_of_nonneg_right (mul_nonneg hw1 hw')
  · calc sel.x / 100 * (p.lrx - p.ulx) + sel.w / 100 * (p.lrx - p.ulx)
        = (sel.x / 100 + sel.w / 100) * (p.lrx - p.ulx) := by ring
      _ ≤ 1 * (p.lrx - p.ulx) := mul_le_mul_of_nonneg_right hxw1 hw'
      _ = p.lrx - p.ulx := one_mul _
  · exact le_add_of_nonneg_right (mul_nonneg hh1 hh')
  · calc sel.y / 100 * (p.lry - p.uly) + sel.h / 100 * (p.lry - p.uly)
        = (sel.y / 100 + sel.h / 100) * (p.lry - p.uly) := by ring
      _ ≤ 1 * (p.lry - p.uly) := mul_le_mul_of_nonneg_right hyh1 hh'
      _ = p.lry - p.uly := one_mul _

/-- Witness for `region_mapper_amended` at concrete inputs. -/
theorem region_mapper_amended_witness :
    (0:ℚ) ≤ (image_highlight_zone pageA { x := 10, y := 10, w := 10, h := 10 } "a1").ulx ∧
    (image_highlight_zone pageA { x := 10, y := 10, w := 10, h := 10 } "a1").lrx ≤
      pageA.lrx - pageA.ulx :=
  ⟨(region_mapper_amended pageA { x := 10, y := 10, w := 10, h := 10 } "a1"
      (by norm_num [pageA]) (by norm_num [pageA]) (by norm_num) (by norm_num)
      (by norm_num) (by norm_num) (by norm_num) (by norm_num)).2.2.2.2.1,
   (region_mapper_amended pageA { x := 10, y := 10, w := 10, h := 10 } "a1"
      (by norm_num [pageA]) (by norm_num [pageA]) (by norm_num) (by norm_num)
      (by norm_num) (by norm_num) (by norm_num) (by norm_num)).2.2.2.2.2.2.1⟩

/-- C6: for an element with direct text of length `n` and an offset
`0 ≤ o ≤ n`, `insert_anchor` places the anchor immediately before the
element when `o = 0`, immediately after it when `o = n`, and otherwise
splits the text: `text[:o]` remains the element's direct text and
`text[o:]` becomes the anchor's tail.  In every case the document-order
text of the neighbourhood is unchanged (the anchor reads as
zero-width), and exactly one new node — the anchor — was added. -/
theorem insert_anchor_spec (c : Ctx) (a : TNode) (o : Nat)
    (hta : a.text = []) (hca : a.children = []) (htl : a.tail = [])
    (ho : o ≤ c.elem.text.length) :
    (o = 0 → insert_anchor c a o = ⟨c.before ++ [a], c.elem, c.after⟩) ∧
    (0 < o → o = c.elem.text.length →
      insert_anchor c a o = ⟨c.before, c.elem, a :: c.after⟩) ∧
    (0 < o → o < c.elem.text.length →
      (insert_anchor c a o).before = c.before ∧
      (insert_anchor c a o).after = c.after ∧
      (insert_anchor c a o).elem.text = c.elem.text.take o ∧
      (insert_anchor c a o).elem.children =
        a.setTail (c.elem.text.drop o) :: c.elem.children) ∧
    ctxText (insert_anchor c a o) = ctxText c ∧
    List.Perm (ctxIds (insert_anchor c a o)) (a.id :: ctxIds c) := by
  cases a with
  | node aj ta ca tla =>
  simp only [TNode.text, TNode.children, TNode.tail] at hta hca htl
  subst hta; subst hca; subst htl
  obtain ⟨bef, el, aft⟩ := c
  cases el with
  | node i t cs tl =>
  simp only [TNode.text] at ho ⊢
  by_cases h0 : o = 0
  · subst h0
    have hres : insert_anchor ⟨bef, .node i t cs tl, aft⟩ (.node aj [] [] []) 0 =
        ⟨bef ++ [.node aj [] [] []], .node i t cs tl, aft⟩ := by
      simp [insert_anchor]
    refine ⟨fun _ => hres, fun h _ => absurd h (by omega), fun h _ => absurd h (by omega),
      ?_, ?_⟩
    · rw [hres]
      simp [ctxText, fullTextL_append, fullTextL, fullText]
    · rw [hres]
      have hpm := @List.perm_middle String aj (nodeIdsL bef)
        (nodeIds (.node i t cs tl) ++ nodeIdsL aft)
      simp only [ctxIds, nodeIdsL_append, nodeIdsL, nodeIds, TNode.id, List.append_assoc,
        List.cons_append, List.nil_append, List.append_nil] at hpm ⊢
      exact hpm
  · by_cases h1 : t.length ≤ o
    · have hres : insert_anchor ⟨bef, .node i t cs tl, aft⟩ (.node aj [] [] []) o =
          ⟨bef, .node i t cs tl, .node aj [] [] [] :: aft⟩ := by
        simp [insert_anchor, h0, TNode.text, h1]
      refine ⟨fun h => absurd h h0, fun _ _ => hres, fun _ h => absurd h (by omega), ?_, ?_⟩
      · rw [hres]
        simp [ctxText, fullTextL, fullText]
      · rw [hres]
        have hpm := @List.perm_middle String aj
          (nodeIdsL bef ++ nodeIds (.node i t cs tl)) (nodeIdsL aft)
        simp only [ctxIds, nodeIdsL, nodeIds, TNode.id, List.append_assoc,
          List.cons_append, List.nil_append, List.append_nil] at hpm ⊢
        exact hpm
    · have hres : insert_anchor ⟨bef, .node i t cs tl, aft⟩ (.node aj [] [] []) o =
          ⟨bef, .node i (t.take o)
            ((TNode.node aj [] [] []).setTail (t.drop o) :: cs) tl, aft⟩ := by
        simp [insert_anchor, h0, TNode.text, h1, TNode.id, TNode.children, TNode.tail]
      refine ⟨fun h => absurd h h0, fun _ h => absurd h.symm (by omega),
        fun _ _ => by rw [hres]; exact ⟨rfl, rfl, rfl, rfl⟩, ?_, ?_⟩
      · rw [hres]
        simp only [ctxText, fullText, fullTextL, TNode.setTail, List.append_assoc,
          List.nil_append, List.append_nil]
        rw [← List.append_assoc (t.take o) (t.drop o), List.take_append_drop]
      · rw [hres]
        have hpm := @List.perm_middle String aj (nodeIdsL bef ++ [i])
          (nodeIdsL cs ++ nodeIdsL aft)
        simp only [ctxIds, nodeIdsL, nodeIds, TNode.id, TNode.setTail, List.append_assoc,
          List.cons_append, List.nil_append, List.append_nil] at hpm ⊢
        exact hpm

/-- Witness for `insert_anchor_spec`: anchor spliced at offset 1 of the
two-character text node `el`. -/
theorem insert_anchor_spec_witness :
    ctxText (insert_anchor ⟨[], .node "el" ['a','b'] [] [], []⟩ (.node "anc" [] [] []) 1) =
      ctxText ⟨[], .node "el" ['a','b'] [] [], []⟩ ∧
    List.Perm
      (ctxIds (insert_anchor ⟨[], .node "el" ['a','b'] [] [], []⟩ (.node "anc" [] [] []) 1))
      ((TNode.node "anc" [] [] []).id :: ctxIds ⟨[], .node "el" ['a','b'] [] [], []⟩) :=
  ⟨(insert_anchor_spec ⟨[], .node "el" ['a','b'] [] [], []⟩ (.node "anc" [] [] []) 1
      rfl rfl rfl (by decide)).2.2.2.1,
   (insert_anchor_spec ⟨[], .node "el" ['a','b'] [] [], []⟩ (.node "anc" [] [] []) 1
      rfl rfl rfl (by decide)).2.2.2.2⟩

/-- The same-node claim is false as stated (`s ≤ e`): at equal offsets
`s = e = 3` inside a 10-character text node, inserting the end anchor
first splits the text at 3, after which the start offset 3 is at the
end of the shortened direct text, so the start anchor is placed after
the element — the start anchor does not precede the end anchor in
document order. -/
theorem same_node_order_counterexample :
    ¬ precedesIn
      (ctxIds (insert_anchor
        (insert_anchor ⟨[], .node "el" "abcdefghij".data [] [], []⟩ (mkEndAnchor "x") 3)
        (mkStartAnchor "x") 3))
      (startAnchorId "x") (endAnchorId "x") := by decide

theorem precedesIn_three_02 (a b c : String) : precedesIn [a, b, c] a c :=
  ⟨⟨0, by simp⟩, ⟨2, by simp⟩, by show (0:Nat) < 2; norm_num, rfl, rfl⟩

theorem precedesIn_three_12 (a b c : String) : precedesIn [a, b, c] b c :=
  ⟨⟨1, by simp⟩, ⟨2, by simp⟩, by show (1:Nat) < 2; norm_num, rfl, rfl⟩

/-- C5 (amended): for a selection whose start and end fall inside the
same text node at offsets `s < e ≤ n`, inserting the end anchor first
and then the start anchor preserves the document-order text exactly
(the anchors read as zero-width) and leaves the start anchor strictly
before the end anchor in document order. -/
theorem same_node_end_first (eid aid : String) (t : List Char) (s e : Nat)
    (hse : s < e) (hen : e ≤ t.length) :
    ctxText (insert_anchor
      (insert_anchor ⟨[], .node eid t [] [], []⟩ (mkEndAnchor aid) e)
      (mkStartAnchor aid) s) = t ∧
    precedesIn
      (ctxIds (insert_anchor
        (insert_anchor ⟨[], .node eid t [] [], []⟩ (mkEndAnchor aid) e)
        (mkStartAnchor aid) s))
      (startAnchorId aid) (endAnchorId aid) := by
  have he0 : ¬ e = 0 := by omega
  rcases eq_or_lt_of_le hen with heq | hlt
  · -- e = t.length: the end anchor is added directly after the element
    have hle : t.length ≤ e := by omega
    have hc1 : insert_anchor ⟨[], .node eid t [] [], []⟩ (mkEndAnchor aid) e =
        ⟨[], .node eid t [] [], [mkEndAnchor aid]⟩ := by
      simp [insert_anchor, he0, TNode.text, hle]
    rw [hc1]
    by_cases hs0 : s = 0
    · subst hs0
      have hc2 : insert_anchor ⟨[], .node eid t [] [], [mkEndAnchor aid]⟩
          (mkStartAnchor aid) 0 =
          ⟨[mkStartAnchor aid], .node eid t [] [], [mkEndAnchor aid]⟩ := by
        simp [insert_anchor]
      rw [hc2]
      refine ⟨?_, ?_⟩
      · simp [ctxText, fullTextL, fullText, mkStartAnchor, mkEndAnchor]
      · have hids : ctxIds ⟨[mkStartAnchor aid], .node eid t [] [], [mkEndAnchor aid]⟩ =
            [startAnchorId aid, eid, endAnchorId aid] := by
          simp [ctxIds, nodeIdsL, nodeIds, mkStartAnchor, mkEndAnchor]
        rw [hids]
        exact precedesIn_three_02 _ _ _
    · have hslen : ¬ t.length ≤ s := by omega
      have hc2 : insert_anchor ⟨[], .node eid t [] [], [mkEndAnchor aid]⟩
          (mkStartAnchor aid) s =
          ⟨[], .node eid (t.take s) [(mkStartAnchor aid).setTail (t.drop s)] [],
            [mkEndAnchor aid]⟩ := by
        simp [insert_anchor, hs0, TNode.text, hslen, TNode.id, TNode.children, TNode.tail]
      rw [hc2]
      refine ⟨?_, ?_⟩
      · simp only [ctxText, fullText, fullTextL, mkStartAnchor, mkEndAnchor, TNode.setTail,
          List.append_assoc, List.nil_append, List.append_nil]
        exact List.take_append_drop s t
      · have hids : ctxIds ⟨[], .node eid (t.take s)
              [(mkStartAnchor aid).setTail (t.drop s)] [], [mkEndAnchor aid]⟩ =
            [eid, startAnchorId aid, endAnchorId aid] := by
          simp [ctxIds, nodeIdsL, nodeIds, mkStartAnchor, mkEndAnchor, TNode.setTail]
        rw [hids]
        exact precedesIn_three_12 _ _ _
  · -- e < t.length: the end anchor splits the element text at e
    have hnle : ¬ t.length ≤ e := by omega
    have hc1 : insert_anchor ⟨[], .node eid t [] [], []⟩ (mkEndAnchor aid) e =
        ⟨[], .node eid (t.take e) [(mkEndAnchor aid).setTail (t.drop e)] [], []⟩ := by
      simp [insert_anchor, he0, TNode.text, hnle, TNode.id, TNode.children, TNode.tail]
    rw [hc1]
    have hlen1 : (t.take e).length = e := by
      rw [List.length_take]
      omega
    by_cases hs0 : s = 0
    · subst hs0
      have hc2 : insert_anchor
          ⟨[], .node eid (t.take e) [(mkEndAnchor aid).setTail (t.drop e)] [], []⟩
          (mkStartAnchor aid) 0 =
          ⟨[mkStartAnchor aid],
            .node eid (t.take e) [(mkEndAnchor aid).setTail (t.drop e)] [], []⟩ := by
        simp [insert_anchor]
      rw [hc2]
      refine ⟨?_, ?_⟩
      · simp only [ctxText, fullText, fullTextL, mkStartAnchor, mkEndAnchor, TNode.setTail,
          List.append_assoc, List.nil_append, List.append_nil]
        exact List.take_append_drop e t
      · have hids : ctxIds ⟨[mkStartAnchor aid],
              .node eid (t.take e) [(mkEndAnchor aid).setTail (t.drop e)] [], []⟩ =
            [startAnchorId aid, eid, endAnchorId aid] := by
          simp [ctxIds, nodeIdsL, nodeIds, mkStartAnchor, mkEndAnchor, TNode.setTail]
        rw [hids]
        exact precedesIn_three_02 _ _ _
    · have hse1 : ¬ (t.take e).length ≤ s := by omega
      have hmin : ¬ min s (min e t.length) = 0 := by omega
      have hmin2 : ¬ min e t.length ≤ s := by omega
      have hc2 : insert_anchor
          ⟨[], .node eid (t.take e) [(mkEndAnchor aid).setTail (t.drop e)] [], []⟩
          (mkStartAnchor aid) s =
          ⟨[], .node eid ((t.take e).take s)
            [(mkStartAnchor aid).setTail ((t.take e).drop s),
             (mkEndAnchor aid).setTail (t.drop e)] [], []⟩ := by
        simp [insert_anchor, hs0, TNode.text, hse1, hmin2, TNode.id, TNode.children,
          TNode.tail]
      rw [hc2]
      refine ⟨?_, ?_⟩
      · simp only [ctxText, fullText, fullTextL, mkStartAnchor, mkEndAnchor, TNode.setTail,
          List.append_assoc, List.nil_append, List.append_nil]
        rw [← List.append_assoc ((t.take e).take s) ((t.take e).drop s),
          List.take_append_drop, List.take_append_drop]
      · have hids : ctxIds ⟨[], .node eid ((t.take e).take s)
              [(mkStartAnchor aid).setTail ((t.take e).drop s),
               (mkEndAnchor aid).setTail (t.drop e)] [], []⟩ =
            [eid, startAnchorId aid, endAnchorId aid] := by
          simp [ctxIds, nodeIdsL, nodeIds, mkStartAnchor, mkEndAnchor, TNode.setTail]
        rw [hids]
        exact precedesIn_three_12 _ _ _

/-- Witness for `same_node_end_first` at offsets 3 and 7 of the
10-character text of the claim's example. -/
theorem same_node_end_first_witness :
    ctxText (insert_anchor
      (insert_anchor ⟨[], .node "el" "abcdefghij".data [] [], []⟩ (mkEndAnchor "x") 7)
      (mkStartAnchor "x") 3) = "abcdefghij".data ∧
    precedesIn
      (ctxIds (insert_anchor
        (insert_anchor ⟨[], .node "el" "abcdefghij".data [] [], []⟩ (mkEndAnchor "x") 7)
        (mkStartAnchor "x") 3))
      (startAnchorId "x") (endAnchorId "x") :=
  same_node_end_first "el" "x" "abcdefghij".data 3 7 (by decide) (by decide)

/-- C7: if either the translated start path or the translated end path
matches no node in the page subtree, `insert_note` logs the warning and
returns with the document and the page completely unchanged: no note is
appended and no anchor is inserted. -/
theorem lookup_failure_skips (xp : List TNode → String → List String)
    (conv : String → Option String) (v : TeiVol) (p : PageZ) (anno : AnnotationRec)
    (r : SelRange) (rs : List SelRange) (hr : anno.info.ranges = some (r :: rs))
    (hfail : xp p.content (startXpathOf r) = [] ∨ xp p.content (endXpathOf r) = []) :
    insert_note xp conv v p anno = .ok ⟨v, p, true⟩ := by
  rcases hfail with h | h
  · simp [insert_note, hr, h]
  · cases hs : xp p.content (startXpathOf r) with
    | nil => simp [insert_note, hr, hs]
    | cons s0 stl => simp [insert_note, hr, hs, h]

/-- Witness for `lookup_failure_skips`: the selection of `annC` under
the never-matching xpath engine. -/
theorem lookup_failure_skips_witness :
    insert_note xpNone convOk volA pageA annC = .ok ⟨volA, pageA, true⟩ :=
  lookup_failure_skips xpNone convOk volA pageA annC rangeEmpty [] rfl (Or.inl rfl)

/-- C8: an annotation carrying neither a (non-empty) selection
descriptor nor an image-region descriptor makes `insert_note` fail with
an exception — the `target` local is never bound, so the source raises
`NameError` at `teinote.target = target` (after `annotation_to_tei`
ran, whose conversion failure would surface first) — and no note is
appended. -/
theorem no_descriptor_errors (xp : List TNode → String → List String)
    (conv : String → Option String) (v : TeiVol) (p : PageZ) (anno : AnnotationRec)
    (hr : anno.info.ranges = none ∨ anno.info.ranges = some [])
    (hi : anno.info.image_selection = none) :
    (insert_note xp conv v p anno).isOk = false ∧
    (∀ s, conv anno.text = some s →
      insert_note xp conv v p anno = .error .nameError) := by
  have hstep : insert_note xp conv v p anno =
      (match annotation_to_tei conv anno v with
       | .error e => .error e
       | .ok _ => .error .nameError) := by
    rcases hr with h | h <;> simp [insert_note, h, hi]
  refine ⟨?_, ?_⟩
  · rw [hstep]
    cases hconv : conv anno.text with
    | none => simp [annotation_to_tei, hconv, Except.isOk, Except.toBool]
    | some s0 => simp [annotation_to_tei, hconv, Except.isOk, Except.toBool]
  · intro s hs
    rw [hstep]
    simp [annotation_to_tei, hs]

/-- Witness for `no_descriptor_errors`: `annB` has neither descriptor;
with a succeeding converter the failure is precisely the `NameError`. -/
theorem no_descriptor_errors_witness :
    (insert_note xpNone convOk volB pageB annB).isOk = false ∧
    insert_note xpNone convOk volB pageB annB = .error .nameError :=
  ⟨(no_descriptor_errors xpNone convOk volB pageB annB (Or.inl rfl) rfl).1,
   (no_descriptor_errors xpNone convOk volB pageB annB (Or.inl rfl) rfl).2
     "direct match" rfl⟩

/-- C10: `insert_note` only ever uses the first node of each xpath
result list: running it against an engine truncated to first matches
yields the identical result, so later matches are ignored. -/
theorem first_match_used (xp : List TNode → String → List String)
    (conv : String → Option String) (v : TeiVol) (p : PageZ) (anno : AnnotationRec) :
    insert_note xp conv v p anno =
      insert_note (fun c q => (xp c q).take 1) conv v p anno := by
  cases hr : anno.info.ranges with
  | none => simp [insert_note, hr]
  | some l =>
    cases l with
    | nil => simp [insert_note, hr]
    | cons r rs =>
      cases hs : xp p.content (startXpathOf r) with
      | nil =>
        cases he : xp p.content (endXpathOf r) with
        | nil => simp [insert_note, hr, hs, he]
        | cons e0 el => simp [insert_note, hr, hs, he]
      | cons s0 sl =>
        cases he : xp p.content (endXpathOf r) with
        | nil => simp [insert_note, hr, hs, he]
        | cons e0 el => simp [insert_note, hr, hs, he]

theorem appendNote_inv (conv : String → Option String) (v : TeiVol) (p' : PageZ)
    (anno : AnnotationRec) (tgt : String) (r : InsertResult)
    (h : appendNote conv v p' anno tgt = Except.ok r) :
    r.page = p' ∧ r.vol.tagsBlock = v.tagsBlock := by
  unfold appendNote at h
  cases hat : annotation_to_tei conv anno v with
  | error e =>
    rw [hat] at h
    exact Except.noConfusion h
  | ok n =>
    rw [hat] at h
    injection h with h'
    subst h'
    exact ⟨rfl, rfl⟩

theorem insert_note_ok_inv (xp : List TNode → String → List String)
    (conv : String → Option String) (v : TeiVol) (p : PageZ) (anno : AnnotationRec)
    (r : InsertResult) (h : insert_note xp conv v p anno = Except.ok r) :
    r.page.href = p.href ∧ r.vol.tagsBlock = v.tagsBlock := by
  unfold insert_note at h
  cases hr : anno.info.ranges with
  | some l =>
    cases l with
    | cons sr srs =>
      simp only [hr] at h
      cases hs : xp p.content (startXpathOf sr) with
      | nil =>
        simp only [hs] at h
        injection h with h'
        subst h'
        exact ⟨rfl, rfl⟩
      | cons s0 stl =>
        cases he : xp p.content (endXpathOf sr) with
        | nil =>
          simp only [hs, he] at h
          injection h with h'
          subst h'
          exact ⟨rfl, rfl⟩
        | cons e0 etl =>
          simp only [hs, he] at h
          have := appendNote_inv _ _ _ _ _ _ h
          exact ⟨by rw [this.1], this.2⟩
    | nil =>
      simp only [hr] at h
      cases hi : anno.info.image_selection with
      | some sel =>
        simp only [hi] at h
        have := appendNote_inv _ _ _ _ _ _ h
        exact ⟨by rw [this.1], this.2⟩
      | none =>
        simp only [hi] at h
        cases hat : annotation_to_tei conv anno v with
        | error e => rw [hat] at h; exact Except.noConfusion h
        | ok n => rw [hat] at h; exact Except.noConfusion h
  | none =>
    simp only [hr] at h
    cases hi : anno.info.image_selection with
    | some sel =>
      simp only [hi] at h
      have := appendNote_inv _ _ _ _ _ _ h
      exact ⟨by rw [this.1], this.2⟩
    | none =>
      simp only [hi] at h
      cases hat : annotation_to_tei conv anno v with
      | error e => rw [hat] at h; exact Except.noConfusion h
      | ok n => rw [hat] at h; exact Except.noConfusion h

theorem setInsert_mem (l : List String) (s x : String) (h : x ∈ l) : x ∈ setInsert l s := by
  unfold setInsert
  by_cases hs : s ∈ l <;> simp [hs, h]

theorem setInsert_self (l : List String) (s : String) : s ∈ setInsert l s := by
  unfold setInsert
  by_cases hs : s ∈ l <;> simp [hs]

theorem setInsert_nodup (l : List String) (s : String) (h : l.Nodup) :
    (setInsert l s).Nodup := by
  unfold setInsert
  by_cases hs : s ∈ l
  · simpa [hs] using h
  · simp only [hs, if_neg, ite_false]
    rw [List.nodup_append]
    exact ⟨h, List.nodup_singleton s, by
      intro a ha hb
      simp at hb
      subst hb
      exact hs ha⟩

theorem foldl_setInsert_mem (ts : List String) (tags : List String) (x : String)
    (h : x ∈ tags) : x ∈ ts.foldl (fun acc t => setInsert acc (pyStrip t)) tags := by
  induction ts generalizing tags with
  | nil => simpa using h
  | cons t0 rest ih =>
    simp only [List.foldl_cons]
    exact ih _ (setInsert_mem _ _ _ h)

theorem foldl_setInsert_collect (ts : List String) (tags : List String) (t : String)
    (h : t ∈ ts) : pyStrip t ∈ ts.foldl (fun acc t => setInsert acc (pyStrip t)) tags := by
  induction ts generalizing tags with
  | nil => cases h
  | cons t0 rest ih =>
    simp only [List.foldl_cons]
    rcases List.mem_cons.mp h with h0 | h0
    · subst h0
      exact foldl_setInsert_mem _ _ _ (setInsert_self _ _)
    · exact ih _ h0

theorem foldl_setInsert_nodup (ts : List String) (tags : List String) (h : tags.Nodup) :
    (ts.foldl (fun acc t => setInsert acc (pyStrip t)) tags).Nodup := by
  induction ts generalizing tags with
  | nil => simpa using h
  | cons t0 rest ih =>
    simp only [List.foldl_cons]
    exact ih _ (setInsert_nodup _ _ h)

theorem processAnns_inv (xp : List TNode → String → List String)
    (conv : String → Option String) :
    ∀ (l : List AnnotationRec) (v : TeiVol) (p : PageZ) (tags : List String)
      (out : TeiVol × PageZ × List String),
      processAnns xp conv v p tags l = Except.ok out →
      out.2.1.href = p.href ∧ out.1.tagsBlock = v.tagsBlock ∧
      (∀ x ∈ tags, x ∈ out.2.2) ∧ (tags.Nodup → out.2.2.Nodup) := by
  intro l
  induction l with
  | nil =>
    intro v p tags out h
    simp only [processAnns] at h
    injection h with h'
    subst h'
    exact ⟨rfl, rfl, fun x hx => hx, fun h => h⟩
  | cons note rest ih =>
    intro v p tags out h
    simp only [processAnns] at h
    by_cases hg : arkOf note = p.href
    · rw [if_neg (not_not_intro hg)] at h
      cases hins : insert_note xp conv v p note with
      | error e => rw [hins] at h; exact Except.noConfusion h
      | ok r =>
        rw [hins] at h
        have hrinv := insert_note_ok_inv xp conv v p note r hins
        cases htg : note.info.tags with
        | some ts =>
          rw [htg] at h
          have := ih r.vol r.page _ out h
          exact ⟨this.1.trans hrinv.1, this.2.1.trans hrinv.2,
            fun x hx => this.2.2.1 x (foldl_setInsert_mem _ _ _ hx),
            fun hnd => this.2.2.2 (foldl_setInsert_nodup _ _ hnd)⟩
        | none =>
          rw [htg] at h
          have := ih r.vol r.page _ out h
          exact ⟨this.1.trans hrinv.1, this.2.1.trans hrinv.2, this.2.2.1, this.2.2.2⟩
    · rw [if_pos hg] at h
      exact ih v p tags out h

theorem processAnns_collect (xp : List TNode → String → List String)
    (conv : String → Option String) :
    ∀ (l : List AnnotationRec) (v : TeiVol) (p : PageZ) (tags : List String)
      (out : TeiVol × PageZ × List String) (a : AnnotationRec) (ts : List String)
      (t : String),
      a ∈ l → arkOf a = p.href → a.info.tags = some ts → t ∈ ts →
      processAnns xp conv v p tags l = Except.ok out → pyStrip t ∈ out.2.2 := by
  intro l
  induction l with
  | nil =>
    intro v p tags out a ts t hmem
    cases hmem
  | cons note rest ih =>
    intro v p tags out a ts t hmem hark htags ht h
    simp only [processAnns] at h
    rcases List.mem_cons.mp hmem with h0 | h0
    · subst h0
      rw [if_neg (not_not_intro hark)] at h
      cases hins : insert_note xp conv v p a with
      | error e => rw [hins] at h; exact Except.noConfusion h
      | ok r =>
        rw [hins, htags] at h
        exact (processAnns_inv xp conv rest r.vol r.page _ out h).2.2.1 _
          (foldl_setInsert_collect _ _ _ ht)
    · by_cases hg : arkOf note = p.href
      · rw [if_neg (not_not_intro hg)] at h
        cases hins : insert_note xp conv v p note with
        | error e => rw [hins] at h; exact Except.noConfusion h
        | ok r =>
          rw [hins] at h
          have hpage := (insert_note_ok_inv xp conv v p note r hins).1
          cases htg : note.info.tags with
          | some ts0 =>
            rw [htg] at h
            exact ih r.vol r.page _ out a ts t h0 (by rw [hpage]; exact hark) htags ht h
          | none =>
            rw [htg] at h
            exact ih r.vol r.page _ out a ts t h0 (by rw [hpage]; exact hark) htags ht h
      · rw [if_pos hg] at h
        exact ih v p tags out a ts t h0 hark htags ht h

theorem processPage_inv (xp : List TNode → String → List String)
    (conv : String → Option String) (anns : List AnnotationRec) (v : TeiVol)
    (page : PageZ) (tags : List String) (out : TeiVol × PageZ × List String)
    (h : processPage xp conv anns v page tags = Except.ok out) :
    out.2.1.href = page.href ∧ out.1.tagsBlock = v.tagsBlock ∧
    (∀ x ∈ tags, x ∈ out.2.2) ∧ (tags.Nodup → out.2.2.Nodup) := by
  unfold processPage at h
  by_cases hh : page.href = ""
  · rw [if_pos hh] at h
    injection h with h'
    subst h'
    exact ⟨rfl, rfl, fun x hx => hx, fun hx => hx⟩
  · rw [if_neg hh] at h
    by_cases he : (anns.filter
        (fun a => a.uri == page.href || extraContains a page.href)).isEmpty = true
    · rw [if_pos he] at h
      injection h with h'
      subst h'
      exact ⟨rfl, rfl, fun x hx => hx, fun hx => hx⟩
    · rw [if_neg he] at h
      exact processAnns_inv xp conv _ v page tags out h

theorem annotatePages_inv (xp : List TNode → String → List String)
    (conv : String → Option String) (anns : List AnnotationRec) :
    ∀ (pages : List PageZ) (v : TeiVol) (tags : List String)
      (out : TeiVol × List PageZ × List String),
      annotatePages xp conv anns v tags pages = Except.ok out →
      out.1.tagsBlock = v.tagsBlock ∧ (∀ x ∈ tags, x ∈ out.2.2) ∧
      (tags.Nodup → out.2.2.Nodup) := by
  intro pages
  induction pages with
  | nil =>
    intro v tags out h
    simp only [annotatePages] at h
    injection h with h'
    subst h'
    exact ⟨rfl, fun x hx => hx, fun hx => hx⟩
  | cons q rest ih =>
    intro v tags out h
    simp only [annotatePages] at h
    cases hq : processPage xp conv anns v q tags with
    | error e => rw [hq] at h; exact Except.noConfusion h
    | ok out1 =>
      obtain ⟨v1, q', tags1⟩ := out1
      simp only [hq] at h
      cases hrest : annotatePages xp conv anns v1 tags1 rest with
      | error e => simp only [hrest] at h; exact Except.noConfusion h
      | ok out2 =>
        obtain ⟨v2, ps', tags2⟩ := out2
        simp only [hrest] at h
        injection h with h'
        subst h'
        have hp := processPage_inv xp conv anns v q tags (v1, q', tags1) hq
        have hr := ih v1 tags1 (v2, ps', tags2) hrest
        exact ⟨hr.1.trans hp.2.1, fun x hx => hr.2.1 x (hp.2.2.1 x hx),
          fun hnd => hr.2.2 (hp.2.2.2 hnd)⟩

theorem annotatePages_collect (xp : List TNode → String → List String)
    (conv : String → Option String) (anns : List AnnotationRec) (p : PageZ)
    (a : AnnotationRec) (ts : List String) (t : String)
    (hhref : ¬ p.href = "") (ha : a ∈ anns)
    (hmatch : (a.uri == p.href || extraContains a p.href) = true)
    (hark : arkOf a = p.href) (htags : a.info.tags = some ts) (ht : t ∈ ts) :
    ∀ (pages : List PageZ) (v : TeiVol) (tags : List String)
      (out : TeiVol × List PageZ × List String),
      p ∈ pages → annotatePages xp conv anns v tags pages = Except.ok out →
      pyStrip t ∈ out.2.2 := by
  intro pages
  induction pages with
  | nil =>
    intro v tags out hmem
    cases hmem
  | cons q rest ih =>
    intro v tags out hmem h
    simp only [annotatePages] at h
    cases hq : processPage xp conv anns v q tags with
    | error e => rw [hq] at h; exact Except.noConfusion h
    | ok out1 =>
      obtain ⟨v1, q', tags1⟩ := out1
      simp only [hq] at h
      cases hrest : annotatePages xp conv anns v1 tags1 rest with
      | error e => simp only [hrest] at h; exact Except.noConfusion h
      | ok out2 =>
        obtain ⟨v2, ps', tags2⟩ := out2
        simp only [hrest] at h
        injection h with h'
        subst h'
        rcases List.mem_cons.mp hmem with h0 | h0
        · subst h0
          unfold processPage at hq
          rw [if_neg hhref] at hq
          have hmem2 : a ∈ anns.filter
              (fun x => x.uri == p.href || extraContains x p.href) :=
            List.mem_filter.mpr ⟨ha, hmatch⟩
          have hne : (anns.filter
              (fun x => x.uri == p.href || extraContains x p.href)).isEmpty ≠ true := by
            intro hemp
            rw [List.isEmpty_iff] at hemp
            rw [hemp] at hmem2
            cases hmem2
          rw [if_neg hne] at hq
          have hcol := processAnns_collect xp conv _ v p tags (v1, q', tags1) a ts t
            hmem2 hark htags ht hq
          exact (annotatePages_inv xp conv anns rest v1 tags1 (v2, ps', tags2) hrest).2.1
            _ hcol
        · exact ih v1 tags1 (v2, ps', tags2) h0 hrest

/-- C9: an annotation that matches a page (candidate filter plus exact
`ark` key) but whose selection lookup fails — so its highlight and note
are skipped — still has every one of its (stripped) tags merged into
the running tag set, and the emitted tag vocabulary of a completed run
carries an entry for it: tag collection is independent of placement
success. -/
theorem skipped_tags_collected (xp : List TNode → String → List String)
    (conv : String → Option String) (ed : String) (v : TeiVol)
    (anns : List AnnotationRec) (p : PageZ) (a : AnnotationRec) (r : SelRange)
    (rs : List SelRange) (ts : List String) (t : String)
    (hok : (annotated_tei xp conv ed v anns).isOk = true)
    (hp : p ∈ v.pages) (hhref : ¬ p.href = "") (ha : a ∈ anns)
    (hmatch : (a.uri == p.href || extraContains a p.href) = true)
    (hark : arkOf a = p.href) (hranges : a.info.ranges = some (r :: rs))
    (hfail : ∀ content, xp content (startXpathOf r) = [])
    (htags : a.info.tags = some ts) (ht : t ∈ ts) :
    resultTagEntry (annotated_tei xp conv ed v anns) (pyStrip t) = true := by
  unfold annotated_tei at hok ⊢
  cases hap : annotatePages xp conv anns (headerRewrite ed v anns) []
      (headerRewrite ed v anns).pages with
  | error e =>
    simp only [hap, Except.isOk, Except.toBool] at hok
    exact Bool.noConfusion hok
  | ok out =>
    obtain ⟨v1, pages', tags⟩ := out
    simp only [hap] at hok ⊢
    have hcol : pyStrip t ∈ tags :=
      annotatePages_collect xp conv anns p a ts t hhref ha hmatch hark htags ht
        (headerRewrite ed v anns).pages (headerRewrite ed v anns) []
        (v1, pages', tags) hp hap
    have hne : tags.isEmpty ≠ true := by
      intro he
      rw [List.isEmpty_iff] at he
      rw [he] at hcol
      cases hcol
    rw [if_neg hne]
    unfold resultTagEntry
    simp only []
    rw [List.any_eq_true]
    refine ⟨⟨slugify (pyStrip t), pyStrip t⟩, List.mem_map_of_mem _ hcol, by simp⟩

/-- Witness for `skipped_tags_collected`: the text annotation `annC`
(tag `"foo "`) matched to page `p1` under the never-matching xpath
engine; the produced vocabulary contains the entry for `foo`. -/
theorem skipped_tags_collected_witness :
    resultTagEntry (annotated_tei xpNone convOk now0 volA [annC]) (pyStrip "foo ") = true :=
  skipped_tags_collected xpNone convOk now0 volA [annC] pageA annC rangeEmpty [] ["foo "]
    "foo " (by decide) (by simp [volA]) (by decide) (by simp)
    (by decide) (by decide) rfl (fun _ => rfl) rfl (by simp)

theorem any_value_map_eq_false (t : String) (l : List String) (h : t ∉ l) :
    (l.map (fun x => ({ id := slugify x, value := x } : Interp))).any
      (fun f => f.value == t) = false := by
  induction l with
  | nil => rfl
  | cons y ys ih =>
    have hy : ¬ y = t := fun hyt => h (by rw [hyt]; exact List.mem_cons_self _ _)
    have hys : t ∉ ys := fun hm => h (List.mem_cons_of_mem _ hm)
    simp only [List.map_cons, List.any_cons, Bool.or_eq_false_iff]
    exact ⟨by simpa using hy, ih hys⟩

theorem nodupValues_map (tags : List String) (h : tags.Nodup) :
    nodupValues (tags.map (fun t => ({ id := slugify t, value := t } : Interp))) = true := by
  induction tags with
  | nil => rfl
  | cons t rest ih =>
    rcases List.nodup_cons.mp h with ⟨hnotin, hrest⟩
    simp only [List.map_cons, nodupValues, Bool.and_eq_true, Bool.not_eq_true']
    exact ⟨any_value_map_eq_false t rest hnotin, ih hrest⟩

theorem allSlug_map (tags : List String) :
    (tags.map (fun t => ({ id := slugify t, value := t } : Interp))).all
      (fun e => e.id == slugify e.value) = true := by
  induction tags with
  | nil => rfl
  | cons t rest ih => simp [List.all_cons, ih]

/-- The tag-vocabulary claim is false on the source: the collected set
holds stripped display labels, not normalized identifiers, so the two
labels `History` and `history` — which slugify to the same id — yield
two `interp` entries, not one. -/
theorem tag_vocab_counterexample :
    tagEntryCount (annotated_tei xpNone convOk now0 volA [annA]) = some 2 ∧
    slugify "History" = slugify "history" := ⟨by decide, by decide⟩

/-- C2 (amended): the emitted tag vocabulary has exactly one entry per
distinct *stripped display label* (not per normalized identifier): the
entries' display values are pairwise distinct and every entry's id is
the slug of its value; labels differing only in case or punctuation
produce separate entries that share a slugified id. -/
theorem tag_vocab_amended (xp : List TNode → String → List String)
    (conv : String → Option String) (ed : String) (v : TeiVol)
    (anns : List AnnotationRec) (hvb : v.tagsBlock = none) :
    tagsBlockOk (annotated_tei xp conv ed v anns) = true := by
  unfold annotated_tei
  cases hap : annotatePages xp conv anns (headerRewrite ed v anns) []
      (headerRewrite ed v anns).pages with
  | error e => simp only [hap]; rfl
  | ok out =>
    obtain ⟨v1, pages', tags⟩ := out
    simp only [hap]
    have hinv := annotatePages_inv xp conv anns (headerRewrite ed v anns).pages
      (headerRewrite ed v anns) [] (v1, pages', tags) hap
    have hnd : tags.Nodup := hinv.2.2 List.nodup_nil
    have hblock : v1.tagsBlock = none := hinv.1.trans hvb
    by_cases hemp : tags.isEmpty = true
    · rw [if_pos hemp]
      simp [tagsBlockOk, hblock]
    · rw [if_neg hemp]
      simp only [tagsBlockOk]
      rw [Bool.and_eq_true]
      exact ⟨nodupValues_map tags hnd, allSlug_map tags⟩

/-- Witness for `tag_vocab_amended` on the concrete run with the
colliding tags `History`/`history`. -/
theorem tag_vocab_amended_witness :
    tagsBlockOk (annotated_tei xpNone convOk now0 volA [annA]) = true :=
  tag_vocab_amended xpNone convOk now0 volA [annA] rfl

theorem annotation_to_tei_isSome_ok (conv : String → Option String) (a : AnnotationRec)
    (v : TeiVol) (h : (conv a.text).isSome = true) :
    ∃ n, annotation_to_tei conv a v = Except.ok n := by
  cases hat : annotation_to_tei conv a v with
  | ok n => exact ⟨n, rfl⟩
  | error e =>
    cases hc : conv a.text with
    | none => rw [hc] at h; exact Bool.noConfusion h
    | some s =>
      simp only [annotation_to_tei, hc] at hat
      exact Except.noConfusion hat

theorem appendNote_ne_error (conv : String → Option String) (v : TeiVol) (p' : PageZ)
    (a : AnnotationRec) (tgt : String) (e : PyErr) (h : (conv a.text).isSome = true) :
    appendNote conv v p' a tgt ≠ Except.error e := by
  intro hap
  obtain ⟨n, hn⟩ := annotation_to_tei_isSome_ok conv a v h
  unfold appendNote at hap
  simp only [hn] at hap
  exact Except.noConfusion hap

theorem insert_note_isOk (xp : List TNode → String → List String)
    (conv : String → Option String) (v : TeiVol) (p : PageZ) (a : AnnotationRec)
    (hc : (conv a.text).isSome = true) (hd : hasDescriptor a = true) :
    ∃ r, insert_note xp conv v p a = Except.ok r := by
  cases hres : insert_note xp conv v p a with
  | ok r => exact ⟨r, rfl⟩
  | error e =>
    exfalso
    cases hr : a.info.ranges with
    | some l =>
      cases l with
      | cons sr srs =>
        simp only [insert_note, hr] at hres
        cases hs : xp p.content (startXpathOf sr) with
        | nil =>
          simp only [hs] at hres
          exact Except.noConfusion hres
        | cons s0 stl =>
          cases he : xp p.content (endXpathOf sr) with
          | nil =>
            simp only [hs, he] at hres
            exact Except.noConfusion hres
          | cons e0 etl =>
            simp only [hs, he] at hres
            exact appendNote_ne_error conv v _ a _ e hc hres
      | nil =>
        simp only [insert_note, hr] at hres
        cases hi : a.info.image_selection with
        | some sel =>
          simp only [hi] at hres
          exact appendNote_ne_error conv v _ a _ e hc hres
        | none => simp [hasDescriptor, hr, hi] at hd
    | none =>
      simp only [insert_note, hr] at hres
      cases hi : a.info.image_selection with
      | some sel =>
        simp only [hi] at hres
        exact appendNote_ne_error conv v _ a _ e hc hres
      | none => simp [hasDescriptor, hr, hi] at hd

theorem processAnns_total (xp : List TNode → String → List String)
    (conv : String → Option String) :
    ∀ (l : List AnnotationRec) (v : TeiVol) (p : PageZ) (tags : List String),
      (∀ a ∈ l, (conv a.text).isSome = true ∧ hasDescriptor a = true) →
      ∃ out, processAnns xp conv v p tags l = Except.ok out := by
  intro l
  induction l with
  | nil => exact fun v p tags _ => ⟨(v, p, tags), rfl⟩
  | cons note rest ih =>
    intro v p tags h
    simp only [processAnns]
    by_cases hg : arkOf note = p.href
    · rw [if_neg (not_not_intro hg)]
      obtain ⟨hc, hd⟩ := h note (List.mem_cons_self _ _)
      obtain ⟨r, hr⟩ := insert_note_isOk xp conv v p note hc hd
      rw [hr]
      cases htg : note.info.tags with
      | some ts =>
        exact ih r.vol r.page _ (fun a ha => h a (List.mem_cons_of_mem _ ha))
      | none =>
        exact ih r.vol r.page _ (fun a ha => h a (List.mem_cons_of_mem _ ha))
    · rw [if_pos hg]
      exact ih v p tags (fun a ha => h a (List.mem_cons_of_mem _ ha))

theorem processPage_total (xp : List TNode → String → List String)
    (conv : String → Option String) (anns : List AnnotationRec) (v : TeiVol)
    (page : PageZ) (tags : List String)
    (h : ∀ a ∈ anns, (conv a.text).isSome = true ∧ hasDescriptor a = true) :
    ∃ out, processPage xp conv anns v page tags = Except.ok out := by
  unfold processPage
  by_cases hh : page.href = ""
  · rw [if_pos hh]; exact ⟨_, rfl⟩
  · rw [if_neg hh]
    by_cases he : (anns.filter
        (fun a => a.uri == page.href || extraContains a page.href)).isEmpty = true
    · rw [if_pos he]; exact ⟨_, rfl⟩
    · rw [if_neg he]
      exact processAnns_total xp conv _ v page tags
        (fun a ha => h a (List.mem_filter.mp ha).1)

theorem annotatePages_total (xp : List TNode → String → List String)
    (conv : String → Option String) (anns : List AnnotationRec)
    (h : ∀ a ∈ anns, (conv a.text).isSome = true ∧ hasDescriptor a = true) :
    ∀ (pages : List PageZ) (v : TeiVol) (tags : List String),
      ∃ out, annotatePages xp conv anns v tags pages = Except.ok out := by
  intro pages
  induction pages with
  | nil => exact fun v tags => ⟨(v, [], tags), rfl⟩
  | cons q rest ih =>
    intro v tags
    simp only [annotatePages]
    obtain ⟨out1, h1⟩ := processPage_total xp conv anns v q tags h
    obtain ⟨v1, q', tags1⟩ := out1
    obtain ⟨out2, h2⟩ := ih v1 tags1
    obtain ⟨v2, ps', tags2⟩ := out2
    simp only [h1, h2]
    exact ⟨_, rfl⟩

/-- The error-handling claim is false on the source: `annotated_tei`
wraps no exception handler around note construction, so a failing
markdown conversion for one matched annotation aborts the whole export
instead of skipping that annotation. -/
theorem conversion_abort_counterexample :
    errorOf (annotated_tei xpNone convFail now0 volA [annA]) = some PyErr.conversion := by
  decide

/-- C4 (amended): only lookup failures are skipped-and-continued; a
markup-conversion failure (and the `NameError` of a descriptor-less
annotation) propagates out of `annotated_tei` uncaught.  Whenever the
converter succeeds on every annotation's text and every annotation
carries a descriptor, `annotated_tei` completes and returns a document
(selection-lookup failures included). -/
theorem conversion_totality (xp : List TNode → String → List String)
    (conv : String → Option String) (ed : String) (v : TeiVol)
    (anns : List AnnotationRec)
    (h : ∀ a ∈ anns, (conv a.text).isSome = true ∧ hasDescriptor a = true) :
    (annotated_tei xp conv ed v anns).isOk = true := by
  unfold annotated_tei
  obtain ⟨out, hout⟩ := annotatePages_total xp conv anns h
    (headerRewrite ed v anns).pages (headerRewrite ed v anns) []
  obtain ⟨v1, pages', tags⟩ := out
  simp only [hout]
  by_cases hemp : tags.isEmpty = true
  · rw [if_pos hemp]; rfl
  · rw [if_neg hemp]; rfl

/-- Witness for `conversion_totality`: with a succeeding converter the
concrete run completes. -/
theorem conversion_totality_witness :
    (annotated_tei xpNone convOk now0 volA [annA]).isOk = true :=
  conversion_totality xpNone convOk now0 volA [annA] (by decide)

theorem processAnns_ark_filter (xp : List TNode → String → List String)
    (conv : String → Option String) :
    ∀ (l : List AnnotationRec) (v : TeiVol) (p : PageZ) (tags : List String),
      processAnns xp conv v p tags l =
        processAnns xp conv v p tags (l.filter (fun a => arkOf a == p.href)) := by
  intro l
  induction l with
  | nil => intro v p tags; rfl
  | cons note rest ih =>
    intro v p tags
    by_cases hg : arkOf note = p.href
    · have hfc : (note :: rest).filter (fun a => arkOf a == p.href) =
          note :: rest.filter (fun a => arkOf a == p.href) := by
        simp [List.filter_cons, hg]
      rw [hfc]
      simp only [processAnns, if_neg (not_not_intro hg)]
      cases hins : insert_note xp conv v p note with
      | error e => simp only [hins]
      | ok r =>
        simp only [hins]
        have hh := (insert_note_ok_inv xp conv v p note r hins).1
        rw [← hh]
        exact ih r.vol r.page _
    · have hfc : (note :: rest).filter (fun a => arkOf a == p.href) =
          rest.filter (fun a => arkOf a == p.href) := by
        simp [List.filter_cons, hg]
      rw [hfc]
      simp only [processAnns, if_pos hg]
      exact ih v p tags

theorem processPage_placed (xp : List TNode → String → List String)
    (conv : String → Option String) (anns : List AnnotationRec) (v : TeiVol)
    (page : PageZ) (tags : List String) :
    processPage xp conv anns v page tags =
      processPage xp conv (placedOnPage anns page.href) v page tags := by
  simp only [processPage]
  by_cases hh : page.href = ""
  · simp only [if_pos hh]
  · simp only [if_neg hh]
    have hplaced : (placedOnPage anns page.href).filter
        (fun a => a.uri == page.href || extraContains a page.href) =
        placedOnPage anns page.href := by
      apply List.filter_eq_self.mpr
      intro a ha
      unfold placedOnPage at ha
      have := (List.mem_filter.mp ha).2
      exact (Bool.and_eq_true _ _ |>.mp this).1
    have hfilter2 : (anns.filter
          (fun a => a.uri == page.href || extraContains a page.href)).filter
        (fun a => arkOf a == page.href) = placedOnPage anns page.href := by
      unfold placedOnPage
      rw [List.filter_filter]
      apply List.filter_congr
      intro a _
      cases h1 : (a.uri == page.href || extraContains a page.href) <;>
        cases h2 : (arkOf a == page.href) <;> simp [h1, h2]
    rw [hplaced]
    by_cases hqe : (placedOnPage anns page.href).isEmpty = true
    · by_cases hpe : (anns.filter
          (fun a => a.uri == page.href || extraContains a page.href)).isEmpty = true
      · rw [if_pos hpe, if_pos hqe]
      · rw [if_neg hpe, if_pos hqe]
        rw [processAnns_ark_filter xp conv _ v page tags, hfilter2,
          List.isEmpty_iff.mp hqe]
        rfl
    · by_cases hpe : (anns.filter
          (fun a => a.uri == page.href || extraContains a page.href)).isEmpty = true
      · exfalso
        apply hqe
        rw [← hfilter2, List.isEmpty_iff.mp hpe]
        rfl
      · rw [if_neg hpe, if_neg hqe]
        rw [processAnns_ark_filter xp conv _ v page tags, hfilter2]

/-- The page-matching claim is false on the source: `annB2` matches
page `page-7` directly by uri but carries no `ark` extra-data key, and
the guard `extra_data.get('ark', '') != page.href` (annotate.py:88)
runs on direct matches too, so no note is placed. -/
theorem direct_match_not_placed_counterexample :
    notesCount (annotated_tei xpNone convOk now0 volB [annB2]) = some 0 ∧
    annB2.uri = pageB.href := ⟨by decide, by decide⟩

/-- C3 (amended): the annotations a page actually places are exactly
the queryset candidates (direct uri match or auxiliary-data substring
match) whose auxiliary `ark` key equals the page key — the `ark` guard
applies to *all* candidates, direct uri matches included, so a direct
match without a matching `ark` key is not placed.  Processing a page is
unchanged by restricting the input collection to that set, and
membership in it is characterised exactly. -/
theorem page_matching_amended (xp : List TNode → String → List String)
    (conv : String → Option String) (anns : List AnnotationRec) (v : TeiVol)
    (page : PageZ) (tags : List String) (a : AnnotationRec) (k : String) :
    processPage xp conv anns v page tags =
      processPage xp conv (placedOnPage anns page.href) v page tags ∧
    (a ∈ placedOnPage anns k ↔
      a ∈ anns ∧ (a.uri = k ∨ extraContains a k = true) ∧ arkOf a = k) := by
  constructor
  · exact processPage_placed xp conv anns v page tags
  · unfold placedOnPage
    rw [List.mem_filter]
    simp [and_assoc]
